import Mathlib

/-!
Verification development for the Lotm.bot Habitica/Discord XP bot
(`lotm_bot_habitica.py`).  The definitions below are a shallow embedding of
the bot's XP-ledger state machine (promotion / demotion), its webhook
ingestion pipeline, its administrative XP commands and its role
synchronization loop.  Machine integers of the source are modelled as
unbounded `Int` (Python integers are arbitrary precision, so no wrap-around
is involved); the Habitica `priority` float is modelled as a rational, since
the source only compares it against the exact breakpoints 1, 1.5 and 2;
database tables are modelled as functions into `Option`; calls to the chat
platform that can raise are modelled with `Except`.
-/

namespace Lotm

/-- Constant `MAX_SEQUENCE = 9` from the source configuration block. -/
def MAX_SEQUENCE : Int := 9

/-- Constant `MIN_SEQUENCE = -1` ("ascended top") from the source. -/
def MIN_SEQUENCE : Int := -1

/-- A row of the `users` table: `xp`, `pathway`, `sequence`
(the `discord_id` key is kept outside, as the lookup key). -/
structure User where
  xp : Int
  pathway : Int
  sequence : Int
deriving DecidableEq

/-- The compiled-in `DEFAULT_SEQUENCE_THRESHOLDS` dictionary: `.get` on it
returns `none` outside the keys -1..9. -/
def DEFAULT_SEQUENCE_THRESHOLDS : Int → Option Int := fun s =>
  if s = 9 then some 900
  else if s = 8 then some 1100
  else if s = 7 then some 1500
  else if s = 6 then some 1800
  else if s = 5 then some 2400
  else if s = 4 then some 3200
  else if s = 3 then some 4200
  else if s = 2 then some 5500
  else if s = 1 then some 7000
  else if s = 0 then some 10000
  else if s = -1 then some 50000
  else none

/-- Source `get_threshold(sequence)`: the `sequence_thresholds` table row if
present, else `DEFAULT_SEQUENCE_THRESHOLDS.get(sequence, 1000)`.  The table
is modelled as a function `tbl : Int → Option Int`. -/
def get_threshold (tbl : Int → Option Int) (s : Int) : Int :=
  match tbl s with
  | some v => v
  | none => (DEFAULT_SEQUENCE_THRESHOLDS s).getD 1000

/-- The promotion `while True:` loop body shared verbatim by
`apply_promotions` and the promotion section of `handle_habitica`:
break when `seq <= MIN_SEQUENCE`; otherwise if `xp >= thresh` subtract the
threshold, decrement the sequence and record the `(seq, new_seq)` pair in
`leveled`, else break.  The loop decreases `sequence` by one each iteration
and stops at `MIN_SEQUENCE`, so `(sequence + 1).toNat` iterations always
suffice; the `fuel` argument bounds the iterations and
`promotion_loop_fuel_eq_spec` below shows any sufficient fuel gives the
same result, i.e. the source loop terminates. -/
def promotion_loop_fuel (thr : Int → Int) : Nat → User → User × List (Int × Int)
  | 0, u => (u, [])
  | fuel + 1, u =>
    if u.sequence ≤ MIN_SEQUENCE then (u, [])
    else if thr u.sequence ≤ u.xp then
      ((promotion_loop_fuel thr fuel ⟨u.xp - thr u.sequence, u.pathway, u.sequence - 1⟩).1,
        (u.sequence, u.sequence - 1) ::
          (promotion_loop_fuel thr fuel ⟨u.xp - thr u.sequence, u.pathway, u.sequence - 1⟩).2)
    else (u, [])

/-- The promotion loop run to completion (with always-sufficient fuel). -/
def promotion_loop (thr : Int → Int) (u : User) : User × List (Int × Int) :=
  promotion_loop_fuel thr (u.sequence + 1).toNat u

/-- Source `apply_promotions(discord_id)` on a present user: re-runs the
promotion loop on the current state and returns the settled user (the
`leveled` list is local there and discarded). -/
def apply_promotions (thr : Int → Int) (u : User) : User :=
  (promotion_loop thr u).1

/-- Modelled from the spec's words (for the refinement claim C1): "while
sequence > -1 and xp >= threshold(sequence), subtract threshold(sequence)
from xp and decrement sequence by 1", recording one transition per
iteration.  Defined by well-founded recursion, so this loop provably
terminates for every input. -/
def spec_promote (thr : Int → Int) (u : User) : User × List (Int × Int) :=
  if h : -1 < u.sequence ∧ thr u.sequence ≤ u.xp then
    ((spec_promote thr ⟨u.xp - thr u.sequence, u.pathway, u.sequence - 1⟩).1,
      (u.sequence, u.sequence - 1) ::
        (spec_promote thr ⟨u.xp - thr u.sequence, u.pathway, u.sequence - 1⟩).2)
  else (u, [])
termination_by (u.sequence + 1).toNat
decreasing_by
  simp_wf
  omega

/-- The chain of promotion transitions `[(s, s-1), (s-1, s-2), ...]` of a
given length starting from sequence `s` — the shape the `leveled` list must
have. -/
def transition_chain : Int → Nat → List (Int × Int)
  | _, 0 => []
  | s, k + 1 => (s, s - 1) :: transition_chain (s - 1) k

/-- The XP-application core of `handle_habitica` (lines 363-416): add the
delta to the stored xp (`add_xp`), then the demotion check (`xp < 0` resets
xp to 0 and moves sequence one step toward `MAX_SEQUENCE`), then the
promotion loop.  Returns the settled user and the `leveled` list. -/
def apply_delta (thr : Int → Int) (u : User) (delta : Int) : User × List (Int × Int) :=
  let newXp := u.xp + delta
  let u2 : User :=
    if newXp < 0 then ⟨0, u.pathway, min (u.sequence + 1) MAX_SEQUENCE⟩
    else ⟨newXp, u.pathway, u.sequence⟩
  promotion_loop thr u2

/-- The threshold table as `handle_habitica` sees it right after `init_db`
populated the defaults: every lookup hits the default values. -/
def thrD : Int → Int := get_threshold (fun _ => none)

/-- Source `priority_to_difficulty(priority)`: fixed breakpoints at 1, 1.5
and 2.  Habitica priorities are the floats 0.1, 1, 1.5, 2; the comparisons
are exact, so a rational models the float faithfully here. -/
def priority_to_difficulty (priority : ℚ) : String :=
  if priority ≤ 1 then "trivial"
  else if priority ≤ 1.5 then "easy"
  else if priority ≤ 2 then "medium"
  else "hard"

/-- Source `get_xp_for(task_type, difficulty)`: the `xp_map` row if present,
else 0.  The task type comes from `task.get("type")` and may be absent
(`None`), in which case the SQL equality matches no row and the result is
0. -/
def get_xp_for (xpMap : String → String → Option Int) (taskType : Option String)
    (difficulty : String) : Int :=
  match taskType with
  | none => 0
  | some t => (xpMap t difficulty).getD 0

/-- The delta computation of `handle_habitica` (lines 352-358): look the
award up for the task type and the difficulty derived from the priority
(default priority 1), then `xp = -abs(xp)` when the direction is
`"down"`. -/
def compute_delta (xpMap : String → String → Option Int) (taskType : Option String)
    (priority : Option ℚ) (direction : Option String) : Int :=
  let xp := get_xp_for xpMap taskType (priority_to_difficulty (priority.getD 1))
  if direction = some "down" then -(|xp|) else xp

/-- The `task` object of a webhook payload: `userId`, `type` and `priority`
are read with `.get` and may each be absent. -/
structure HabiticaTask where
  userId : Option String
  taskType : Option String
  priority : Option ℚ
deriving DecidableEq

/-- An inbound webhook payload after JSON parsing: `data.get("task", {})`
yields either a task object or the falsy empty dict (modelled as `none`),
and `data.get("direction")` may be absent. -/
structure WebhookEvent where
  task : Option HabiticaTask
  direction : Option String
deriving DecidableEq

/-- The three outcomes of `handle_habitica`: HTTP 400 ("Invalid Webhook"),
HTTP 404 ("Habitica user not linked"), or the JSON response carrying the
applied xp delta and the `leveled` transition list. -/
inductive WebhookResult where
  | badRequest : WebhookResult
  | notLinked : WebhookResult
  | ok : Int → List (Int × Int) → WebhookResult
deriving DecidableEq

/-- The persistent store as `handle_habitica` reads and writes it: the
`users` table keyed by discord id, the `habitica_link` table keyed by
Habitica user id, the `xp_map` table and the `sequence_thresholds`
table. -/
structure DB where
  users : String → Option User
  links : String → Option String
  xpMap : String → String → Option Int
  thresholds : Int → Option Int

/-- Source `handle_habitica(request)` (lines 323-421), everything except
transport and announcements: reject with 400 when `not user_id or not
task` (the task dict missing/empty, or `userId` absent or empty); reject
with 404 when `resolve_habitica` finds no link; otherwise compute the
delta, apply it through `add_xp` (which creates the default row
`{xp 0, pathway 1, sequence 9}` when absent), run the demotion check and
the promotion loop, and persist the settled user.  Returns the response
and the store after the event. -/
def handle_habitica (db : DB) (ev : WebhookEvent) : WebhookResult × DB :=
  match ev.task with
  | none => (.badRequest, db)
  | some task =>
    match task.userId with
    | none => (.badRequest, db)
    | some uid =>
      if uid = "" then (.badRequest, db)
      else
        match db.links uid with
        | none => (.notLinked, db)
        | some discordId =>
          let xp := compute_delta db.xpMap task.taskType task.priority ev.direction
          let u0 := (db.users discordId).getD ⟨0, 1, MAX_SEQUENCE⟩
          let r := apply_delta (get_threshold db.thresholds) u0 xp
          (.ok xp r.2,
            ⟨fun i => if i = discordId then some r.1 else db.users i,
              db.links, db.xpMap, db.thresholds⟩)

/-- Source `setuserxp` command: overwrite xp keeping pathway and sequence
(creating `{xp, 1, MAX_SEQUENCE}` when the user is absent), then
`apply_promotions`.  No demotion check runs here. -/
def setuserxp_op (thr : Int → Int) (u : Option User) (xp : Int) : User :=
  let u0 : User :=
    match u with
    | none => ⟨xp, 1, MAX_SEQUENCE⟩
    | some v => ⟨xp, v.pathway, v.sequence⟩
  apply_promotions thr u0

/-- Source `addxp` command: add the amount to the stored xp (a fresh user
starts at `{amount, 1, MAX_SEQUENCE}`), then `apply_promotions`.  No
demotion check runs here either. -/
def addxp_op (thr : Int → Int) (u : Option User) (amount : Int) : User :=
  let u0 : User :=
    match u with
    | none => ⟨amount, 1, MAX_SEQUENCE⟩
    | some v => ⟨v.xp + amount, v.pathway, v.sequence⟩
  apply_promotions thr u0

/-- Source `subtractxp` command: a fresh user is first stored as
`{0, 1, MAX_SEQUENCE}`; then `new_xp = xp - amount`, with the demotion
branch when `new_xp < 0` (reset to 0, sequence one step toward
`MAX_SEQUENCE`), then `apply_promotions`. -/
def subtractxp_op (thr : Int → Int) (u : Option User) (amount : Int) : User :=
  let u0 : User :=
    match u with
    | none => ⟨0, 1, MAX_SEQUENCE⟩
    | some v => v
  let nx := u0.xp - amount
  let u1 : User :=
    if nx < 0 then ⟨0, u0.pathway, min (u0.sequence + 1) MAX_SEQUENCE⟩
    else ⟨nx, u0.pathway, u0.sequence⟩
  apply_promotions thr u1

/-- A resolved guild member: the set of role ids the member currently
holds. -/
structure Member where
  roles : List Int
deriving DecidableEq

/-- One guild as `sync_user_roles` interacts with it: the member if
resolvable (`get_member` / `fetch_member`; `NotFound` or `HTTPException`
during the fetch make the member unresolvable and the guild is skipped),
the role ids that exist in the guild (`guild.get_role`), and whether a
`remove_roles` / `add_roles` HTTP call for a given role id succeeds (when
it does not, the discord library raises and the exception propagates out of
`sync_user_roles`, modelled with `Except`). -/
structure Guild where
  member : Option Member
  guildRoles : List Int
  removeOk : Int → Bool
  addOk : Int → Bool

/-- Python `range(MIN_SEQUENCE, MAX_SEQUENCE + 1)`: the sequence values
-1, 0, ..., 9 the removal loop walks. -/
def seqRange : List Int := (List.range 11).map (fun n => (n : Int) - 1)

/-- Effect of `member.add_roles(role)`: the member holds the role
afterwards. -/
def addRole (rid : Int) (roles : List Int) : List Int :=
  if rid ∈ roles then roles else rid :: roles

/-- One iteration of the removal loop of `sync_user_roles`: look the role
binding up for `(pathway, seq)`; when a role id is bound, the role exists
in the guild and the member holds it, call `remove_roles` — an HTTP failure
of that call raises. -/
def removeStep (rm : Int → Int → Option Int) (pathway : Int) (g : Guild)
    (m : Member) (seq : Int) : Except Unit Member :=
  match rm pathway seq with
  | none => .ok m
  | some rid =>
    if rid ∈ g.guildRoles ∧ rid ∈ m.roles then
      (if g.removeOk rid then .ok ⟨m.roles.erase rid⟩ else .error ())
    else .ok m

/-- The trailing add of `sync_user_roles`: when a role is bound for
`(pathway, new_sequence)` and exists in the guild, call `add_roles` — an
HTTP failure raises; an unbound pair or a role id the guild lacks is only
logged. -/
def addStep (rm : Int → Int → Option Int) (pathway newSeq : Int) (g : Guild)
    (m : Member) : Except Unit Member :=
  match rm pathway newSeq with
  | none => .ok m
  | some rid =>
    if rid ∈ g.guildRoles then
      (if g.addOk rid then .ok ⟨addRole rid m.roles⟩ else .error ())
    else .ok m

/-- The per-guild body of `sync_user_roles`: skip the guild when the member
is unresolvable; otherwise run the removal loop over every sequence in
`seqRange` and then the add step, an exception anywhere propagating. -/
def sync_guild (rm : Int → Int → Option Int) (pathway newSeq : Int) (g : Guild) :
    Except Unit Guild :=
  match g.member with
  | none => .ok g
  | some m =>
    match seqRange.foldlM (removeStep rm pathway g) m with
    | .error e => .error e
    | .ok m1 =>
      match addStep rm pathway newSeq g m1 with
      | .error e => .error e
      | .ok m2 => .ok ⟨some m2, g.guildRoles, g.removeOk, g.addOk⟩

/-- Source `sync_user_roles(discord_id, new_sequence)` (lines 268-310)
iterating over `bot.guilds` for a user with the given pathway: guilds are
processed in order and an uncaught exception from a role call aborts the
remaining guilds and propagates to the caller. -/
def sync_user_roles (rm : Int → Int → Option Int) (pathway newSeq : Int) :
    List Guild → Except Unit (List Guild)
  | [] => .ok []
  | g :: gs =>
    match sync_guild rm pathway newSeq g with
    | .error e => .error e
    | .ok g2 =>
      match sync_user_roles rm pathway newSeq gs with
      | .error e => .error e
      | .ok gs2 => .ok (g2 :: gs2)

/-! Helper lemmas about the promotion loop. -/

/-- Any sufficient fuel makes the fuel-bounded loop agree with the
terminating spec loop; in particular the source loop terminates within
`(sequence + 1).toNat` iterations. -/
theorem promotion_loop_fuel_eq_spec (thr : Int → Int) :
    ∀ (fuel : Nat) (u : User), (u.sequence + 1).toNat ≤ fuel →
      promotion_loop_fuel thr fuel u = spec_promote thr u := by
  intro fuel
  induction fuel with
  | zero =>
    intro u h
    rw [spec_promote, dif_neg]
    · rfl
    · rintro ⟨h1, -⟩
      omega
  | succ n ih =>
    intro u h
    rw [spec_promote]
    simp only [promotion_loop_fuel, MIN_SEQUENCE]
    by_cases h1 : u.sequence ≤ -1
    · rw [if_pos h1, dif_neg]
      rintro ⟨h2, -⟩
      omega
    · rw [if_neg h1]
      by_cases h2 : thr u.sequence ≤ u.xp
      · rw [if_pos h2, dif_pos ⟨by omega, h2⟩,
          ih ⟨u.xp - thr u.sequence, u.pathway, u.sequence - 1⟩ (by simp only []; omega)]
      · rw [if_neg h2, dif_neg]
        rintro ⟨-, h3⟩
        exact h2 h3

/-- The running loop equals the spec loop. -/
theorem promotion_loop_eq_spec (thr : Int → Int) (u : User) :
    promotion_loop thr u = spec_promote thr u :=
  promotion_loop_fuel_eq_spec thr _ u le_rfl

/-- The promotion loop never touches the pathway field. -/
theorem promotion_loop_fuel_pathway (thr : Int → Int) :
    ∀ (fuel : Nat) (u : User), (promotion_loop_fuel thr fuel u).1.pathway = u.pathway := by
  intro fuel
  induction fuel with
  | zero => intro u; rfl
  | succ n ih =>
    intro u
    simp only [promotion_loop_fuel]
    by_cases h1 : u.sequence ≤ MIN_SEQUENCE
    · rw [if_pos h1]
    · rw [if_neg h1]
      by_cases h2 : thr u.sequence ≤ u.xp
      · rw [if_pos h2]
        exact ih _
      · rw [if_neg h2]

/-- The promotion loop keeps a non-negative xp non-negative: xp is only
reduced by a threshold when it is at least that threshold. -/
theorem promotion_loop_fuel_xp_nonneg (thr : Int → Int) :
    ∀ (fuel : Nat) (u : User), 0 ≤ u.xp → 0 ≤ (promotion_loop_fuel thr fuel u).1.xp := by
  intro fuel
  induction fuel with
  | zero => intro u h; exact h
  | succ n ih =>
    intro u h
    simp only [promotion_loop_fuel]
    by_cases h1 : u.sequence ≤ MIN_SEQUENCE
    · rw [if_pos h1]; exact h
    · rw [if_neg h1]
      by_cases h2 : thr u.sequence ≤ u.xp
      · rw [if_pos h2]
        exact ih _ (by simp only []; omega)
      · rw [if_neg h2]; exact h

/-- The `leveled` list is the descending chain of one-step transitions
starting at the initial sequence, and the final sequence is the initial
one lowered by the number of promotions taken. -/
theorem promotion_loop_fuel_chain (thr : Int → Int) :
    ∀ (fuel : Nat) (u : User),
      (promotion_loop_fuel thr fuel u).2 =
        transition_chain u.sequence (promotion_loop_fuel thr fuel u).2.length ∧
      (promotion_loop_fuel thr fuel u).1.sequence =
        u.sequence - (promotion_loop_fuel thr fuel u).2.length := by
  intro fuel
  induction fuel with
  | zero =>
    intro u
    exact ⟨rfl, by simp [promotion_loop_fuel, transition_chain]⟩
  | succ n ih =>
    intro u
    simp only [promotion_loop_fuel]
    by_cases h1 : u.sequence ≤ MIN_SEQUENCE
    · rw [if_pos h1]
      exact ⟨rfl, by simp [transition_chain]⟩
    · rw [if_neg h1]
      by_cases h2 : thr u.sequence ≤ u.xp
      · rw [if_pos h2]
        obtain ⟨hc, hs⟩ := ih ⟨u.xp - thr u.sequence, u.pathway, u.sequence - 1⟩
        refine ⟨?_, ?_⟩
        · simp only [List.length_cons, transition_chain]
          exact congrArg _ hc
        · simp only [List.length_cons]
          simp only [] at hs
          omega
      · rw [if_neg h2]
        exact ⟨rfl, by simp [transition_chain]⟩

/-- When the loop settles from a sequence at least -1, either the terminal
tier -1 was reached or the remaining xp no longer meets the current
threshold. -/
theorem promotion_loop_fuel_final (thr : Int → Int) :
    ∀ (fuel : Nat) (u : User), (u.sequence + 1).toNat ≤ fuel → -1 ≤ u.sequence →
      (promotion_loop_fuel thr fuel u).1.sequence = -1 ∨
        (promotion_loop_fuel thr fuel u).1.xp <
          thr (promotion_loop_fuel thr fuel u).1.sequence := by
  intro fuel
  induction fuel with
  | zero =>
    intro u h hlo
    left
    simp only [promotion_loop_fuel]
    omega
  | succ n ih =>
    intro u h hlo
    simp only [promotion_loop_fuel, MIN_SEQUENCE]
    by_cases h1 : u.sequence ≤ -1
    · rw [if_pos h1]
      exact Or.inl (show u.sequence = -1 by omega)
    · rw [if_neg h1]
      by_cases h2 : thr u.sequence ≤ u.xp
      · rw [if_pos h2]
        exact ih ⟨u.xp - thr u.sequence, u.pathway, u.sequence - 1⟩
          (by simp only []; omega) (by simp only []; omega)
      · rw [if_neg h2]
        exact Or.inr (show u.xp < thr u.sequence by omega)

/-- The loop takes no step when the current xp is below the current
threshold. -/
theorem promotion_loop_no_step (thr : Int → Int) (u : User)
    (h : u.xp < thr u.sequence) : promotion_loop thr u = (u, []) := by
  rw [promotion_loop]
  cases hf : (u.sequence + 1).toNat with
  | zero => rfl
  | succ n =>
    simp only [promotion_loop_fuel]
    by_cases h1 : u.sequence ≤ MIN_SEQUENCE
    · rw [if_pos h1]
    · rw [if_neg h1, if_neg (by omega)]

/-- Wrapper of `promotion_loop_fuel_xp_nonneg` for the full loop. -/
theorem promotion_loop_xp_nonneg (thr : Int → Int) (u : User) (h : 0 ≤ u.xp) :
    0 ≤ (promotion_loop thr u).1.xp :=
  promotion_loop_fuel_xp_nonneg thr _ u h

/-- Wrapper of `promotion_loop_fuel_pathway` for the full loop. -/
theorem promotion_loop_pathway (thr : Int → Int) (u : User) :
    (promotion_loop thr u).1.pathway = u.pathway :=
  promotion_loop_fuel_pathway thr _ u

/-- Neither the demotion check nor the promotion loop touches the pathway
field. -/
theorem apply_delta_pathway (thr : Int → Int) (u : User) (delta : Int) :
    (apply_delta thr u delta).1.pathway = u.pathway := by
  unfold apply_delta
  dsimp only
  split
  · exact promotion_loop_pathway thr _
  · exact promotion_loop_pathway thr _

/-- Every threshold the default table yields is positive. -/
theorem thrD_pos (s : Int) : 0 < thrD s := by
  show 0 < (DEFAULT_SEQUENCE_THRESHOLDS s).getD 1000
  unfold DEFAULT_SEQUENCE_THRESHOLDS
  repeat' split
  all_goals decide

/-- With only non-negative awards configured, every award lookup is
non-negative. -/
theorem get_xp_for_nonneg (xpMap : String → String → Option Int)
    (hnn : ∀ t d v, xpMap t d = some v → 0 ≤ v) (taskType : Option String)
    (difficulty : String) : 0 ≤ get_xp_for xpMap taskType difficulty := by
  unfold get_xp_for
  cases taskType with
  | none => exact Int.le_refl 0
  | some t =>
    show 0 ≤ (xpMap t difficulty).getD 0
    cases hx : xpMap t difficulty with
    | none => exact Int.le_refl 0
    | some v => exact hnn t difficulty v hx

/-! Claim theorems. -/

/-- C1: on any starting state with non-negative xp and sequence in
[-1, 9], and any positive threshold table, the promotion step of the
source (the loop in `handle_habitica`, and `apply_promotions` as a whole)
equals the spec's terminating while-loop; one `(from, to)` transition is
recorded per iteration in descending order; the final state has xp below
the threshold of its sequence unless the sequence is -1; and a state
already at sequence -1 is left unchanged with no promotion taken. -/
theorem promotion_step_correct (thr : Int → Int) (hthr : ∀ s, 0 < thr s)
    (u : User) (hxp : 0 ≤ u.xp) (hlo : -1 ≤ u.sequence) (hhi : u.sequence ≤ 9) :
    promotion_loop thr u = spec_promote thr u ∧
    apply_promotions thr u = (spec_promote thr u).1 ∧
    (promotion_loop thr u).2 =
      transition_chain u.sequence (promotion_loop thr u).2.length ∧
    (promotion_loop thr u).1.sequence =
      u.sequence - (promotion_loop thr u).2.length ∧
    ((promotion_loop thr u).1.sequence = -1 ∨
      (promotion_loop thr u).1.xp < thr (promotion_loop thr u).1.sequence) ∧
    (u.sequence = -1 → promotion_loop thr u = (u, [])) := by
  refine ⟨promotion_loop_eq_spec thr u,
    congrArg Prod.fst (promotion_loop_eq_spec thr u),
    (promotion_loop_fuel_chain thr _ u).1,
    (promotion_loop_fuel_chain thr _ u).2,
    promotion_loop_fuel_final thr _ u le_rfl hlo, ?_⟩
  intro h
  rw [promotion_loop, h]
  norm_num
  rfl

/-- Witness for C1 at the default thresholds and the state (950, 1, 9). -/
theorem promotion_step_correct_witness :
    promotion_loop thrD ⟨950, 1, 9⟩ = spec_promote thrD ⟨950, 1, 9⟩ ∧
    apply_promotions thrD ⟨950, 1, 9⟩ = (spec_promote thrD ⟨950, 1, 9⟩).1 ∧
    (promotion_loop thrD ⟨950, 1, 9⟩).2 =
      transition_chain 9 (promotion_loop thrD ⟨950, 1, 9⟩).2.length ∧
    (promotion_loop thrD ⟨950, 1, 9⟩).1.sequence =
      9 - (promotion_loop thrD ⟨950, 1, 9⟩).2.length ∧
    ((promotion_loop thrD ⟨950, 1, 9⟩).1.sequence = -1 ∨
      (promotion_loop thrD ⟨950, 1, 9⟩).1.xp <
        thrD (promotion_loop thrD ⟨950, 1, 9⟩).1.sequence) ∧
    ((9 : Int) = -1 → promotion_loop thrD ⟨950, 1, 9⟩ = (⟨950, 1, 9⟩, [])) :=
  promotion_step_correct thrD thrD_pos ⟨950, 1, 9⟩ (by decide) (by decide) (by decide)

/-- Store for scenario C: user "d" at (xp 0, pathway 1, sequence 9), linked
from Habitica id "h", a rule awarding 5000 XP for a todo, and the default
thresholds (900 at 9, 1100 at 8, 1500 at 7, 1800 at 6). -/
def dbC : DB :=
  ⟨fun i => if i = "d" then some ⟨0, 1, 9⟩ else none,
   fun h => if h = "h" then some "d" else none,
   fun t _ => if t = "todo" then some 5000 else none,
   fun _ => none⟩

/-- Scenario C event: a completed todo scored upward for Habitica user
"h". -/
def evC : WebhookEvent := ⟨some ⟨some "h", some "todo", some 3⟩, some "up"⟩

/-- C2 counterexample: the settled xp of the scenario-C webhook workflow is
not 1200 — promoting 7 → 6 subtracts threshold(7) = 1500 from the 3000
remaining, leaving 1500, not 1200. -/
theorem scenario_c_counterexample :
    ((handle_habitica dbC evC).2.users "d").map User.xp ≠ some 1200 := by decide

/-- C2 amended: the settled result of the scenario-C webhook workflow is
sequence 6 and xp 1500 (the delta is +5000 and the ordered transitions are
(9,8), (8,7), (7,6), as the claim states). -/
theorem scenario_c_amended :
    (handle_habitica dbC evC).1 = .ok 5000 [(9, 8), (8, 7), (7, 6)] ∧
    (handle_habitica dbC evC).2.users "d" = some ⟨1500, 1, 6⟩ :=
  ⟨by decide, by decide⟩

/-- C3: when the delta drives the xp below 0, the settled state of the
webhook workflow is exactly xp 0 with the sequence moved one single step
toward `MAX_SEQUENCE` (capped there), however negative the xp went, and the
subsequent promotion loop takes no transition when every threshold is
positive. -/
theorem demotion_single_step (thr : Int → Int) (hthr : ∀ s, 0 < thr s)
    (u : User) (delta : Int) (hneg : u.xp + delta < 0) :
    apply_delta thr u delta = (⟨0, u.pathway, min (u.sequence + 1) MAX_SEQUENCE⟩, []) := by
  have h : apply_delta thr u delta =
      promotion_loop thr ⟨0, u.pathway, min (u.sequence + 1) MAX_SEQUENCE⟩ := by
    unfold apply_delta
    dsimp only
    rw [if_pos hneg]
  rw [h]
  exact promotion_loop_no_step thr _ (hthr _)

/-- Witness for C3: a user at (100, 1, 7) hit by -150 lands at (0, 1, 8)
with no promotion. -/
theorem demotion_single_step_witness :
    (100 : Int) + (-150) < 0 ∧
    apply_delta thrD ⟨100, 1, 7⟩ (-150) = (⟨0, 1, 8⟩, []) :=
  ⟨by decide, demotion_single_step thrD thrD_pos ⟨100, 1, 7⟩ (-150) (by decide)⟩

/-- C4 counterexample: the administrative `setuserxp` persists a negative
xp — with a negative argument the raw value is stored, `apply_promotions`
takes no step, and the settled ledger xp is negative. -/
theorem xp_invariant_counterexample : (setuserxp_op thrD none (-50)).xp < 0 := by
  decide

/-- C4 amended: the settled xp is never negative after a webhook event or a
`subtractxp`, whatever the delta; after `setuserxp` or `addxp` (which run
no demotion check) it is non-negative provided the value written — the set
value, respectively the stored xp plus the amount (the bare amount for a
fresh user) — is non-negative, and a negative written value is persisted
as-is. -/
theorem xp_invariant_amended (thr : Int → Int) :
    (∀ (u : User) (delta : Int), 0 ≤ (apply_delta thr u delta).1.xp) ∧
    (∀ (u : Option User) (amount : Int), 0 ≤ (subtractxp_op thr u amount).xp) ∧
    (∀ (u : Option User) (xp : Int), 0 ≤ xp → 0 ≤ (setuserxp_op thr u xp).xp) ∧
    (∀ (v : User) (amount : Int), 0 ≤ v.xp + amount →
      0 ≤ (addxp_op thr (some v) amount).xp) ∧
    (∀ amount : Int, 0 ≤ amount → 0 ≤ (addxp_op thr none amount).xp) := by
  refine ⟨?_, ?_, ?_, ?_, ?_⟩
  · intro u delta
    unfold apply_delta
    dsimp only
    split
    · exact promotion_loop_xp_nonneg thr _ (Int.le_refl 0)
    · next h => exact promotion_loop_xp_nonneg thr _ (show 0 ≤ u.xp + delta by omega)
  · intro u amount
    unfold subtractxp_op apply_promotions
    cases u with
    | none =>
      dsimp only
      split
      · exact promotion_loop_xp_nonneg thr _ (Int.le_refl 0)
      · next h => exact promotion_loop_xp_nonneg thr _ (show (0 : Int) ≤ 0 - amount by omega)
    | some v =>
      dsimp only
      split
      · exact promotion_loop_xp_nonneg thr _ (Int.le_refl 0)
      · next h => exact promotion_loop_xp_nonneg thr _ (show 0 ≤ v.xp - amount by omega)
  · intro u xp hxp
    unfold setuserxp_op apply_promotions
    cases u with
    | none => exact promotion_loop_xp_nonneg thr _ hxp
    | some v => exact promotion_loop_xp_nonneg thr _ hxp
  · intro v amount h
    unfold addxp_op apply_promotions
    exact promotion_loop_xp_nonneg thr _ h
  · intro amount h
    unfold addxp_op apply_promotions
    exact promotion_loop_xp_nonneg thr _ h

/-- Witness for C4 (amended) across the four operations at the default
thresholds. -/
theorem xp_invariant_amended_witness :
    0 ≤ (apply_delta thrD ⟨5, 1, 9⟩ (-100)).1.xp ∧
    0 ≤ (subtractxp_op thrD (some ⟨5, 1, 9⟩) 100).xp ∧
    0 ≤ (setuserxp_op thrD none 1500).xp ∧
    0 ≤ (addxp_op thrD (some ⟨0, 1, 9⟩) 200).xp ∧
    0 ≤ (addxp_op thrD none 200).xp :=
  ⟨(xp_invariant_amended thrD).1 ⟨5, 1, 9⟩ (-100),
   (xp_invariant_amended thrD).2.1 (some ⟨5, 1, 9⟩) 100,
   (xp_invariant_amended thrD).2.2.1 none 1500 (by decide),
   (xp_invariant_amended thrD).2.2.2.1 ⟨0, 1, 9⟩ 200 (by decide),
   (xp_invariant_amended thrD).2.2.2.2 200 (by decide)⟩

/-- C6: an event without a task payload or without a (non-empty)
task-service user id is rejected with the 400 response and the store is
exactly what it was; an event whose Habitica id has no link row is
rejected with the 404 response, again with the store untouched. -/
theorem ingestion_rejection (db : DB) (ev : WebhookEvent) :
    ((ev.task.bind HabiticaTask.userId = none ∨
        ev.task.bind HabiticaTask.userId = some "") →
      handle_habitica db ev = (.badRequest, db)) ∧
    (∀ (task : HabiticaTask) (uid : String), ev.task = some task →
      task.userId = some uid → uid ≠ "" → db.links uid = none →
      handle_habitica db ev = (.notLinked, db)) := by
  constructor
  · intro h
    rcases ev with ⟨task?, dir⟩
    cases task? with
    | none => rfl
    | some task =>
      rcases task with ⟨uid?, tt, pr⟩
      cases uid? with
      | none => rfl
      | some uid =>
        simp only [Option.bind, Option.some.injEq, reduceCtorEq, false_or] at h
        show (if uid = "" then ((WebhookResult.badRequest, db) : WebhookResult × DB)
          else _) = _
        rw [if_pos h]
  · intro task uid hts htu hne hl
    rcases ev with ⟨task?, dir⟩
    dsimp only at hts
    subst hts
    rcases task with ⟨uid?, tt, pr⟩
    dsimp only at htu
    subst htu
    show (if uid = "" then ((WebhookResult.badRequest, db) : WebhookResult × DB)
      else match db.links uid with
        | none => (WebhookResult.notLinked, db)
        | some discordId => _) = _
    rw [if_neg hne, hl]

/-- Empty store used by the rejection witness. -/
def dbW : DB := ⟨fun _ => none, fun _ => none, fun _ _ => none, fun _ => none⟩

/-- Witness for C6: a task-less event is 400-rejected, an unlinked one is
404-rejected, both leaving the store as it was. -/
theorem ingestion_rejection_witness :
    handle_habitica dbW ⟨none, none⟩ = (.badRequest, dbW) ∧
    handle_habitica dbW ⟨some ⟨some "h", none, none⟩, none⟩ = (.notLinked, dbW) :=
  ⟨(ingestion_rejection dbW ⟨none, none⟩).1 (Or.inl rfl),
   (ingestion_rejection dbW ⟨some ⟨some "h", none, none⟩, none⟩).2
     ⟨some "h", none, none⟩ "h" rfl rfl (by decide) rfl⟩

/-- C7: the difficulty tier is fixed by the breakpoints 1, 1.5 and 2; a
missing XP rule (unmapped task type or difficulty) yields award 0 and no
error; and — under the data model's constraint that configured awards are
non-negative — a "down" event applies the negated award, any other
direction the award itself. -/
theorem delta_rule (xpMap : String → String → Option Int)
    (hnn : ∀ t d v, xpMap t d = some v → 0 ≤ v)
    (taskType : Option String) (p : ℚ) (direction : Option String) :
    (p ≤ 1 → priority_to_difficulty p = "trivial") ∧
    (1 < p → p ≤ 1.5 → priority_to_difficulty p = "easy") ∧
    (1.5 < p → p ≤ 2 → priority_to_difficulty p = "medium") ∧
    (2 < p → priority_to_difficulty p = "hard") ∧
    (∀ t d, xpMap t d = none → get_xp_for xpMap (some t) d = 0) ∧
    (∀ d, get_xp_for xpMap none d = 0) ∧
    compute_delta xpMap taskType (some p) direction =
      (if direction = some "down"
        then -(get_xp_for xpMap taskType (priority_to_difficulty p))
        else get_xp_for xpMap taskType (priority_to_difficulty p)) := by
  refine ⟨?_, ?_, ?_, ?_, ?_, ?_, ?_⟩
  · intro h
    unfold priority_to_difficulty
    rw [if_pos h]
  · intro h1 h2
    unfold priority_to_difficulty
    rw [if_neg (by linarith), if_pos h2]
  · intro h1 h2
    unfold priority_to_difficulty
    rw [if_neg (by linarith), if_neg (by linarith), if_pos h2]
  · intro h
    unfold priority_to_difficulty
    rw [if_neg (by linarith), if_neg (by linarith), if_neg (by linarith)]
  · intro t d h
    show (xpMap t d).getD 0 = 0
    rw [h]
    rfl
  · intro d
    rfl
  · unfold compute_delta
    dsimp only [Option.getD]
    split
    · next h => rw [abs_of_nonneg (get_xp_for_nonneg xpMap hnn taskType _)]
    · next h => rfl

/-- Witness for C7 with the constant rule table awarding 7 XP, priority 3
and direction "down". -/
theorem delta_rule_witness :
    ((3 : ℚ) ≤ 1 → priority_to_difficulty 3 = "trivial") ∧
    (1 < (3 : ℚ) → (3 : ℚ) ≤ 1.5 → priority_to_difficulty 3 = "easy") ∧
    (1.5 < (3 : ℚ) → (3 : ℚ) ≤ 2 → priority_to_difficulty 3 = "medium") ∧
    (2 < (3 : ℚ) → priority_to_difficulty 3 = "hard") ∧
    (∀ t d, (fun _ _ => (some 7 : Option Int)) t d = none →
      get_xp_for (fun _ _ => some 7) (some t) d = 0) ∧
    (∀ d, get_xp_for (fun _ _ => some 7) none d = 0) ∧
    compute_delta (fun _ _ => some 7) (some "todo") (some 3) (some "down") =
      (if (some "down" : Option String) = some "down"
        then -(get_xp_for (fun _ _ => some 7) (some "todo") (priority_to_difficulty 3))
        else get_xp_for (fun _ _ => some 7) (some "todo") (priority_to_difficulty 3)) :=
  delta_rule (fun _ _ => some 7) (by intro t d v h; simp at h; omega)
    (some "todo") 3 (some "down")

/-- C9: the webhook workflow — raw delta, demotion check, promotion loop —
never changes a user's pathway: any user present before the event who is
still present after it has the same pathway, whether or not the event
targeted them (a freshly created target starts at the default pathway). -/
theorem pathway_unchanged (db : DB) (ev : WebhookEvent) (i : String) (u u' : User)
    (hu : db.users i = some u)
    (hu' : (handle_habitica db ev).2.users i = some u') :
    u'.pathway = u.pathway := by
  rcases ev with ⟨task?, dir⟩
  cases task? with
  | none =>
    rw [show (handle_habitica db ⟨none, dir⟩).2 = db from rfl, hu] at hu'
    cases hu'
    rfl
  | some task =>
    rcases task with ⟨uid?, tt, pr⟩
    cases uid? with
    | none =>
      rw [show (handle_habitica db ⟨some ⟨none, tt, pr⟩, dir⟩).2 = db from rfl, hu] at hu'
      cases hu'
      rfl
    | some uid =>
      by_cases hb : uid = ""
      · subst hb
        rw [show (handle_habitica db ⟨some ⟨some "", tt, pr⟩, dir⟩).2 = db from rfl,
          hu] at hu'
        cases hu'
        rfl
      · have hstep : (handle_habitica db ⟨some ⟨some uid, tt, pr⟩, dir⟩).2 =
            (match db.links uid with
              | none => db
              | some discordId =>
                ⟨fun j => if j = discordId then
                    some (apply_delta (get_threshold db.thresholds)
                      ((db.users discordId).getD ⟨0, 1, MAX_SEQUENCE⟩)
                      (compute_delta db.xpMap tt pr dir)).1
                  else db.users j,
                  db.links, db.xpMap, db.thresholds⟩) := by
          unfold handle_habitica
          dsimp only
          rw [if_neg hb]
          cases db.links uid with
          | none => rfl
          | some did => rfl
        rw [hstep] at hu'
        cases hl : db.links uid with
        | none =>
          rw [hl] at hu'
          dsimp only at hu'
          rw [hu] at hu'
          cases hu'
          rfl
        | some did =>
          rw [hl] at hu'
          dsimp only at hu'
          by_cases hi : i = did
          · rw [if_pos hi] at hu'
            subst hi
            rw [hu] at hu'
            cases hu'
            rw [apply_delta_pathway]
            rfl
          · rw [if_neg hi] at hu'
            rw [hu] at hu'
            cases hu'
            rfl

/-- Witness for C9 at the scenario-C store: the settled entry of user "d"
keeps pathway 1. -/
theorem pathway_unchanged_witness :
    (⟨1500, 1, 6⟩ : User).pathway = (⟨0, 1, 9⟩ : User).pathway :=
  pathway_unchanged dbC evC "d" ⟨0, 1, 9⟩ ⟨1500, 1, 6⟩ (by decide) (by decide)

/-- C10: for a "down" event the applied delta is minus the absolute value
of the configured award, hence never positive — even for a negative
configured award, where plain negation would have produced a positive
delta. -/
theorem down_delta_nonpos (xpMap : String → String → Option Int)
    (taskType : Option String) (priority : Option ℚ) :
    compute_delta xpMap taskType priority (some "down") =
      -|get_xp_for xpMap taskType (priority_to_difficulty (priority.getD 1))| ∧
    compute_delta xpMap taskType priority (some "down") ≤ 0 := by
  have h : compute_delta xpMap taskType priority (some "down") =
      -|get_xp_for xpMap taskType (priority_to_difficulty (priority.getD 1))| := by
    unfold compute_delta
    rw [if_pos rfl]
  exact ⟨h, h ▸ neg_nonpos.mpr (abs_nonneg _)⟩

/-! Helper lemmas about the role-sync loops. -/

/-- Bind of a successful `Except` step. -/
theorem except_ok_bind {α β : Type} (a : α) (f : α → Except Unit β) :
    (Except.ok a >>= f) = f a := rfl

/-- When every `remove_roles` call succeeds, the removal loop over a list of
sequence values completes, only ever removes roles (the result's role set is
contained in the initial one and stays duplicate-free), and afterwards the
member holds no role bound to any visited sequence. -/
theorem removeFold_ok (rm : Int → Int → Option Int) (pathway : Int) (g : Guild)
    (hrem : ∀ r, g.removeOk r = true) :
    ∀ (L : List Int) (m : Member), m.roles ⊆ g.guildRoles → m.roles.Nodup →
      ∃ m1, L.foldlM (removeStep rm pathway g) m = .ok m1 ∧
        m1.roles ⊆ m.roles ∧ m1.roles.Nodup ∧
        ∀ s ∈ L, ∀ rid, rm pathway s = some rid → rid ∉ m1.roles := by
  intro L
  induction L with
  | nil =>
    intro m hsub hnd
    exact ⟨m, rfl, fun _ h => h, hnd, by simp⟩
  | cons s0 L ih =>
    intro m hsub hnd
    rw [List.foldlM_cons]
    cases hrm : rm pathway s0 with
    | none =>
      have hstep : removeStep rm pathway g m s0 = .ok m := by
        unfold removeStep
        rw [hrm]
      obtain ⟨m1, hfold, hsub1, hnd1, hmem⟩ := ih m hsub hnd
      refine ⟨m1, by rw [hstep, except_ok_bind, hfold], hsub1, hnd1, ?_⟩
      intro s hs rid hr
      rcases List.mem_cons.mp hs with h | h
      · subst h
        rw [hrm] at hr
        cases hr
      · exact hmem s h rid hr
    | some rid0 =>
      by_cases hcond : rid0 ∈ g.guildRoles ∧ rid0 ∈ m.roles
      · have hstep : removeStep rm pathway g m s0 = .ok ⟨m.roles.erase rid0⟩ := by
          unfold removeStep
          simp only [hrm]
          rw [if_pos hcond, if_pos (hrem rid0)]
        have hsub2 : (m.roles.erase rid0) ⊆ g.guildRoles :=
          fun x hx => hsub (List.mem_of_mem_erase hx)
        obtain ⟨m1, hfold, hsub1, hnd1, hmem⟩ :=
          ih ⟨m.roles.erase rid0⟩ hsub2 (hnd.erase rid0)
        refine ⟨m1, by rw [hstep, except_ok_bind, hfold],
          fun x hx => List.mem_of_mem_erase (hsub1 hx), hnd1, ?_⟩
        intro s hs rid hr
        rcases List.mem_cons.mp hs with h | h
        · subst h
          rw [hrm] at hr
          cases hr
          intro hmem1
          exact ((hnd.mem_erase_iff).mp (hsub1 hmem1)).1 rfl
        · exact hmem s h rid hr
      · have hstep : removeStep rm pathway g m s0 = .ok m := by
          unfold removeStep
          simp only [hrm]
          rw [if_neg hcond]
        obtain ⟨m1, hfold, hsub1, hnd1, hmem⟩ := ih m hsub hnd
        refine ⟨m1, by rw [hstep, except_ok_bind, hfold], hsub1, hnd1, ?_⟩
        intro s hs rid hr
        rcases List.mem_cons.mp hs with h | h
        · subst h
          rw [hrm] at hr
          cases hr
          intro hmem1
          have hin : rid0 ∈ m.roles := hsub1 hmem1
          exact hcond ⟨hsub hin, hin⟩
        · exact hmem s h rid hr

/-- A resolvable guild whose role calls all succeed is synchronized: the
member ends up holding the role bound to the new sequence and no other role
bound to any sequence of the pathway. -/
theorem sync_guild_ok (rm : Int → Int → Option Int) (pathway newSeq r2 : Int)
    (hb : rm pathway newSeq = some r2) (g : Guild) (m : Member)
    (hm : g.member = some m) (hr2 : r2 ∈ g.guildRoles)
    (hsub : m.roles ⊆ g.guildRoles) (hnd : m.roles.Nodup)
    (hrem : ∀ r, g.removeOk r = true) (hadd : g.addOk r2 = true) :
    ∃ m2, sync_guild rm pathway newSeq g =
        .ok ⟨some m2, g.guildRoles, g.removeOk, g.addOk⟩ ∧
      r2 ∈ m2.roles ∧
      ∀ s ∈ seqRange, ∀ rid, rm pathway s = some rid → rid ≠ r2 →
        rid ∉ m2.roles := by
  obtain ⟨m1, hfold, hsub1, hnd1, hmem⟩ :=
    removeFold_ok rm pathway g hrem seqRange m hsub hnd
  have hastep : addStep rm pathway newSeq g m1 = .ok ⟨addRole r2 m1.roles⟩ := by
    unfold addStep
    simp only [hb]
    rw [if_pos hr2, if_pos hadd]
  refine ⟨⟨addRole r2 m1.roles⟩, ?_, ?_, ?_⟩
  · simp only [sync_guild, hm, hfold, hastep]
  · unfold addRole
    split
    · next h => exact h
    · next h => exact List.mem_cons_self r2 _
  · intro s hs rid hr hne
    have h1 : rid ∉ m1.roles := hmem s hs rid hr
    show rid ∉ addRole r2 m1.roles
    unfold addRole
    split
    · next h => exact h1
    · next h =>
      intro hc
      rcases List.mem_cons.mp hc with h2 | h2
      · exact hne h2
      · exact h1 h2

/-- C8: with a role bound to the new sequence that exists in each
resolvable community and all role calls succeeding, synchronization
completes and, community by community, an unresolvable member leaves the
community untouched while a resolvable member ends holding the new
sequence's role and no other role bound to any sequence in [-1, 9] of the
user's pathway. -/
theorem sync_roles_correct (rm : Int → Int → Option Int) (pathway newSeq r2 : Int)
    (hb : rm pathway newSeq = some r2) :
    ∀ guilds : List Guild,
      (∀ g ∈ guilds, ∀ m, g.member = some m →
        r2 ∈ g.guildRoles ∧ m.roles ⊆ g.guildRoles ∧ m.roles.Nodup ∧
        (∀ r, g.removeOk r = true) ∧ g.addOk r2 = true) →
      ∃ guilds2, sync_user_roles rm pathway newSeq guilds = .ok guilds2 ∧
        List.Forall₂ (fun g g2 =>
          (g.member = none → g2 = g) ∧
          (∀ m, g.member = some m → ∃ m2, g2.member = some m2 ∧
            r2 ∈ m2.roles ∧
            ∀ s ∈ seqRange, ∀ rid, rm pathway s = some rid → rid ≠ r2 →
              rid ∉ m2.roles)) guilds guilds2 := by
  intro guilds
  induction guilds with
  | nil =>
    intro h
    exact ⟨[], rfl, List.Forall₂.nil⟩
  | cons g gs ih =>
    intro h
    obtain ⟨gs2, hsync, hall⟩ := ih (fun g2 hg2 => h g2 (List.mem_cons_of_mem _ hg2))
    cases hm : g.member with
    | none =>
      have hg : sync_guild rm pathway newSeq g = .ok g := by
        unfold sync_guild
        rw [hm]
      refine ⟨g :: gs2, ?_, List.Forall₂.cons ⟨fun _ => rfl, ?_⟩ hall⟩
      · simp only [sync_user_roles, hg, hsync]
      · intro m hmm
        rw [hm] at hmm
        cases hmm
    | some m =>
      obtain ⟨hr2, hsub, hnd, hrem, hadd⟩ := h g (List.mem_cons_self g gs) m hm
      obtain ⟨m2, hg, hmem2, hnomem⟩ :=
        sync_guild_ok rm pathway newSeq r2 hb g m hm hr2 hsub hnd hrem hadd
      refine ⟨⟨some m2, g.guildRoles, g.removeOk, g.addOk⟩ :: gs2, ?_,
        List.Forall₂.cons ⟨?_, ?_⟩ hall⟩
      · simp only [sync_user_roles, hg, hsync]
      · intro hc
        rw [hm] at hc
        cases hc
      · intro m2' hm2'
        rw [hm] at hm2'
        cases hm2'
        exact ⟨m2, rfl, hmem2, hnomem⟩

/-- Role bindings used by the role-sync witnesses: pathway 1 binds role 10
at sequence 9 and role 20 at sequence 8. -/
def rmW : Int → Int → Option Int := fun p s =>
  if p = 1 ∧ s = 9 then some 10 else if p = 1 ∧ s = 8 then some 20 else none

/-- A guild where the member is unresolvable. -/
def gN : Guild := ⟨none, [], fun _ => true, fun _ => true⟩

/-- A guild whose resolvable member holds role 10 and whose `remove_roles`
calls all fail. -/
def gBad : Guild := ⟨some ⟨[10]⟩, [10], fun _ => false, fun _ => true⟩

/-- A healthy guild: member resolvable holding role 10, both bound roles
exist, every role call succeeds. -/
def gOk : Guild := ⟨some ⟨[10]⟩, [10, 20], fun _ => true, fun _ => true⟩

/-- Witness for C8: syncing pathway 1 to sequence 8 over an unresolvable
guild followed by a healthy one. -/
theorem sync_roles_correct_witness :
    ∃ guilds2, sync_user_roles rmW 1 8 [gN, gOk] = .ok guilds2 ∧
      List.Forall₂ (fun g g2 =>
        (g.member = none → g2 = g) ∧
        (∀ m, g.member = some m → ∃ m2, g2.member = some m2 ∧
          (20 : Int) ∈ m2.roles ∧
          ∀ s ∈ seqRange, ∀ rid, rmW 1 s = some rid → rid ≠ 20 →
            rid ∉ m2.roles)) [gN, gOk] guilds2 := by
  refine sync_roles_correct rmW 1 8 20 rfl [gN, gOk] ?_
  intro g hg m hm
  rcases List.mem_cons.mp hg with h | h
  · subst h
    exact Option.noConfusion hm
  · rcases List.mem_cons.mp h with h2 | h2
    · subst h2
      have hm2 : (⟨[10]⟩ : Member) = m := Option.some.inj hm
      refine ⟨by decide, ?_, ?_, fun r => rfl, rfl⟩
      · rw [← hm2]
        simp [gOk]
      · rw [← hm2]
        decide
    · cases h2

/-- C5 counterexample: a failing `remove_roles` call in the first community
is not caught — it aborts the synchronization of the remaining communities
and surfaces to the caller (only member-resolution failures are caught in
the source). -/
theorem sync_failure_counterexample :
    sync_user_roles rmW 1 8 [gBad, gOk] = .error () := rfl

/-- C5 amended: a member-resolution failure in one community is skipped and
synchronization continues with the remaining communities; but a failure of
an individual role add or remove call propagates: it aborts the
synchronization of every remaining community and surfaces to the caller. -/
theorem sync_failure_amended (rm : Int → Int → Option Int) (pathway newSeq : Int)
    (g : Guild) (gs : List Guild) :
    (g.member = none →
      sync_user_roles rm pathway newSeq (g :: gs) =
        (sync_user_roles rm pathway newSeq gs).map (fun l => g :: l)) ∧
    (sync_guild rm pathway newSeq g = .error () →
      sync_user_roles rm pathway newSeq (g :: gs) = .error ()) := by
  constructor
  · intro hm
    have hg : sync_guild rm pathway newSeq g = .ok g := by
      unfold sync_guild
      rw [hm]
    simp only [sync_user_roles, hg]
    cases sync_user_roles rm pathway newSeq gs with
    | error e => rfl
    | ok l => rfl
  · intro hg
    simp only [sync_user_roles, hg]

/-- Witness for C5 (amended): an unresolvable first community is skipped,
while a first community with a failing remove call makes the whole
synchronization error out. -/
theorem sync_failure_amended_witness :
    sync_user_roles rmW 1 8 (gN :: [gBad]) =
      (sync_user_roles rmW 1 8 [gBad]).map (fun l => gN :: l) ∧
    sync_user_roles rmW 1 8 (gBad :: [gN]) = .error () :=
  ⟨(sync_failure_amended rmW 1 8 gN [gBad]).1 rfl,
   (sync_failure_amended rmW 1 8 gBad [gN]).2 rfl⟩

end Lotm
